import Mathlib

/-!
Shallow embedding of `src/lib.rs` of the `impl-vec` repository: a minimal
growable vector `MyVec<T>` built on raw allocation primitives.

Memory model: the allocated block behind the raw `pointer` field is modelled
as `buffer : List (Option T)`, one entry per element slot; `none` stands for
uninitialized bytes.  When `capacity = 0` the pointer is dangling and no
block exists, modelled by `buffer = []`.  `length` and `capacity` are the two
`usize` fields of the Rust struct.  `usize` arithmetic is `Nat` with explicit
bound checks against `2 ^ 64 - 1` where the source uses checked operations or
asserts; panics (`assert!`, `expect`) are modelled as an error outcome that
carries the state exactly as it stood at the moment of the panic.  Allocator
interaction is modelled by a trace of allocator calls plus an oracle bit
saying whether the (single possible) allocation call of a `push` succeeds.
-/

/-- Model of `usize::MAX` on a 64-bit target. -/
def USIZE_MAX : Nat := 2 ^ 64 - 1

/-- Model of `isize::MAX as usize` on a 64-bit target. -/
def ISIZE_MAX : Nat := 2 ^ 63 - 1

/-- The struct `MyVec<T>` from `src/lib.rs` lines 7-16.  The raw field
`pointer: NonNull<T>` together with the block it points to is modelled by
`buffer`: one `Option T` per allocated slot (`none` = uninitialized bytes);
an empty list models the dangling pointer of the unallocated state. -/
structure MyVec (T : Type) where
  buffer : List (Option T)
  length : Nat
  capacity : Nat
deriving DecidableEq

/-- `MyVec::new` (lines 19-26): dangling pointer, `length = 0`,
`capacity = 0`, no allocator call is made. -/
def MyVec.new {T : Type} : MyVec T :=
  { buffer := [], length := 0, capacity := 0 }

/-- `MyVec::len` (lines 28-30): returns the `length` field. -/
def MyVec.len {T : Type} (v : MyVec T) : Nat := v.length

/-- `MyVec::capacity` (lines 32-34): returns the `capacity` field; modelled
by the structure projection `MyVec.capacity` itself. -/
def MyVec.capacityFn {T : Type} (v : MyVec T) : Nat := v.capacity

/-- The distinct fatal outcomes (`assert!` / `expect` panics) that `push`
can take, one constructor per panic site in lines 36-90 of the source,
in source order. -/
inductive PushError where
  /-- line 38: `assert_ne!(size_of::<T>(), 0, "No zero sized types")` -/
  | zeroSized
  /-- line 42: `Layout::array::<T>(4).expect(...)` fails -/
  | layoutOverflow
  /-- line 47: `NonNull::new(pointer).expect(...)` after `alloc` returns null -/
  | allocFailed
  /-- line 58: `length.checked_mul(size_of::<T>()).expect(...)` fails -/
  | offsetOverflow
  /-- line 59: `assert!(offset < isize::MAX as usize)` fails -/
  | offsetWrapped
  /-- line 74: `size.checked_add(size % align).expect(...)` fails -/
  | sizeWrapped
  /-- line 75: `capacity.checked_mul(2).expect(...)` fails -/
  | capacityWrapped
  /-- line 82: `NonNull::new(...).expect(...)` after `realloc` returns null -/
  | reallocFailed
deriving DecidableEq

/-- One call into the system allocator, with the byte sizes and alignment
that the source passes to it. -/
inductive AllocCall where
  /-- `alloc(layout)` with the layout size and alignment (line 46) -/
  | alloc (size align : Nat)
  /-- `realloc(ptr, old layout, new size)` (line 79) -/
  | realloc (oldSize align newSize : Nat)
deriving DecidableEq

/-- Outcome of one `push`: the state of the vector afterwards (on a fatal
error, the state exactly as it stood when the panic fired), the fatal
outcome if any, and the allocator calls that were made. -/
structure PushResult (T : Type) where
  state : MyVec T
  error : Option PushError
  allocCalls : List AllocCall
deriving DecidableEq

/-- The old-layout byte size that the grow path of `push` computes for the
`realloc` call, lines 71-74 of the source:
`size = size_of::<T>() * capacity; size = size.checked_add(size % align)`. -/
def growOldLayoutSize (sizeT alignT capacity : Nat) : Nat :=
  sizeT * capacity + (sizeT * capacity) % alignT

/-- `MyVec::push` (lines 36-90).  `sizeT` and `alignT` are
`size_of::<T>()` and `align_of::<T>()`; `allocOk` is the allocator oracle
for the at most one `alloc`/`realloc` call this push can make (`true` =
the call returns memory, `false` = it returns null). -/
def MyVec.push {T : Type} (sizeT alignT : Nat) (allocOk : Bool)
    (v : MyVec T) (x : T) : PushResult T :=
  -- line 38: assert_ne!(size_of::<T>(), 0, ...)
  if sizeT = 0 then
    { state := v, error := some PushError.zeroSized, allocCalls := [] }
  else if v.capacity = 0 then
    -- lines 41-52: first allocation, room for exactly 4 elements.
    -- `Layout::array::<T>(4)` errors when the byte size exceeds isize::MAX
    -- (no padding is needed because size_of is a multiple of align_of).
    if ISIZE_MAX < 4 * sizeT then
      { state := v, error := some PushError.layoutOverflow, allocCalls := [] }
    else if allocOk then
      { state :=
          { buffer := (List.replicate 4 (none : Option T)).set 0 (some x),
            length := 1, capacity := 4 },
        error := none,
        allocCalls := [AllocCall.alloc (4 * sizeT) alignT] }
    else
      { state := v, error := some PushError.allocFailed,
        allocCalls := [AllocCall.alloc (4 * sizeT) alignT] }
  else if v.length < v.capacity then
    -- lines 53-64: spare capacity, write in place, no allocator call.
    if USIZE_MAX < v.length * sizeT then
      { state := v, error := some PushError.offsetOverflow, allocCalls := [] }
    else if ISIZE_MAX ≤ v.length * sizeT then
      { state := v, error := some PushError.offsetWrapped, allocCalls := [] }
    else
      { state :=
          { buffer := v.buffer.set v.length (some x),
            length := v.length + 1, capacity := v.capacity },
        error := none, allocCalls := [] }
  else
    -- lines 65-89: full (length == capacity), grow by doubling.
    if USIZE_MAX < growOldLayoutSize sizeT alignT v.capacity then
      { state := v, error := some PushError.sizeWrapped, allocCalls := [] }
    else if USIZE_MAX < v.capacity * 2 then
      { state := v, error := some PushError.capacityWrapped, allocCalls := [] }
    else
      let newCapacity := v.capacity * 2
      -- line 76: unchecked multiplication, wraps at usize on overflow
      let newSizeInBytes := (sizeT * newCapacity) % (USIZE_MAX + 1)
      if allocOk then
        -- realloc keeps the old contents and extends the block; the new
        -- element is then written at offset `length` (line 84) and the
        -- three fields are updated (lines 86-88).
        { state :=
            { buffer :=
                (v.buffer ++
                  List.replicate (newCapacity - v.capacity) (none : Option T)).set
                  v.length (some x),
              length := v.length + 1, capacity := newCapacity },
          error := none,
          allocCalls :=
            [AllocCall.realloc (growOldLayoutSize sizeT alignT v.capacity)
              alignT newSizeInBytes] }
      else
        -- line 82: panic before any field of `self` is written.
        { state := v, error := some PushError.reallocFailed,
          allocCalls :=
            [AllocCall.realloc (growOldLayoutSize sizeT alignT v.capacity)
              alignT newSizeInBytes] }

/-- `MyVec::get` (lines 92-98): `None` when `index >= length`, otherwise a
read of the slot at `index` (for reachable states that slot is always
initialized, so the read yields a value). -/
def MyVec.get {T : Type} (v : MyVec T) (index : Nat) : Option T :=
  if v.length ≤ index then none
  else (v.buffer[index]?).join

/-- A sequence of pushes, every one with a cooperating allocator.  The
boolean result records whether every push succeeded; a fatal push stops
the sequence (in Rust the process would terminate there). -/
def MyVec.pushAll {T : Type} (sizeT alignT : Nat) (v : MyVec T) :
    List T → MyVec T × Bool
  | [] => (v, true)
  | x :: rest =>
    let r := MyVec.push sizeT alignT true v x
    match r.error with
    | some _ => (r.state, false)
    | none => MyVec.pushAll sizeT alignT r.state rest

/-- One observable event of `Drop for MyVec<T>` (lines 101-116). -/
inductive DropEvent (T : Type) where
  /-- the destructor of one live element runs (`drop_in_place`, line 106) -/
  | elemDrop (value : T)
  /-- `drop_in_place` hits an uninitialized slot (never happens for
  reachable states) -/
  | uninitDrop
  /-- `dealloc(pointer, Layout(size, align))`, lines 110-113 -/
  | deallocCall (size align : Nat)
deriving DecidableEq

/-- The event trace of `Drop for MyVec<T>` (lines 101-116): destruct the
slots `[0, length)` in ascending index order, then unconditionally call
`dealloc` with size `size_of::<T>() * capacity` and the alignment of `T`.
Note the source makes the `dealloc` call even when `capacity == 0`. -/
def MyVec.dropTrace {T : Type} (sizeT alignT : Nat) (v : MyVec T) :
    List (DropEvent T) :=
  ((v.buffer.take v.length).map fun slot =>
      match slot with
      | some a => DropEvent.elemDrop a
      | none => DropEvent.uninitDrop) ++
    [DropEvent.deallocCall (sizeT * v.capacity) alignT]

/-- Refinement relation: the vector state `v` represents the list `xs` of
live values.  Captures the memory-safety invariants of the source: the
block has exactly `capacity` slots, `length` counts the live prefix, and
the slots `[0, length)` are initialized with the pushed values in order. -/
def MyVec.Abstracts {T : Type} (v : MyVec T) (xs : List T) : Prop :=
  v.buffer.length = v.capacity ∧
  v.length = xs.length ∧
  v.length ≤ v.capacity ∧
  v.buffer.take v.length = xs.map some

/-- Reachable states of a `MyVec<T>`: obtained from `new()` by any sequence
of pushes, with any allocator behavior (a fatal push leaves the state at
the moment of the panic, which is what the owner would still hold). -/
inductive MyVec.Reachable {T : Type} (sizeT alignT : Nat) : MyVec T → Prop where
  | new : MyVec.Reachable sizeT alignT MyVec.new
  | push (v : MyVec T) (x : T) (allocOk : Bool) :
      MyVec.Reachable sizeT alignT v →
      MyVec.Reachable sizeT alignT (MyVec.push sizeT alignT allocOk v x).state

/-- Rust layout guarantee for any type `T`: `align_of::<T>()` is nonzero
and `size_of::<T>()` is always a multiple of `align_of::<T>()`. -/
def RustLayoutValid (sizeT alignT : Nat) : Prop :=
  0 < alignT ∧ alignT ∣ sizeT

/-- Statement of claim C10 as written: for some element type with nonzero
size, the old-layout byte size computed by the grow path differs from
`capacity * size_of::<T>()`, that is, the `size % align` padding adjustment
is not always zero. -/
def GrowPaddingNonzeroSomewhere : Prop :=
  ∃ sizeT alignT capacity : Nat,
    RustLayoutValid sizeT alignT ∧ 0 < sizeT ∧
    growOldLayoutSize sizeT alignT capacity ≠ sizeT * capacity

lemma take_set_snoc {α : Type} (l : List α) (n : Nat) (a : α) (hn : n < l.length) :
    (l.set n a).take (n + 1) = l.take n ++ [a] := by
  apply List.ext_getElem?
  intro i
  have hlen : (l.take n).length = n := by simp [List.length_take]; omega
  rcases lt_trichotomy i n with h | h | h
  · have e1 : ((l.set n a).take (n + 1))[i]? = l[i]? := by
      rw [List.getElem?_take, if_pos (by omega), List.getElem?_set, if_neg (by omega)]
    have e2 : (l.take n ++ [a])[i]? = l[i]? := by
      rw [List.getElem?_append, if_pos (by rw [hlen]; omega), List.getElem?_take, if_pos h]
    rw [e1, e2]
  · subst h
    have e1 : ((l.set i a).take (i + 1))[i]? = some a := by
      rw [List.getElem?_take, if_pos (by omega), List.getElem?_set, if_pos rfl, if_pos hn]
    have e2 : (l.take i ++ [a])[i]? = some a := by
      rw [List.getElem?_append, if_neg (by rw [hlen]; omega), hlen, Nat.sub_self]
      rfl
    rw [e1, e2]
  · have e1 : ((l.set n a).take (n + 1))[i]? = none := by
      rw [List.getElem?_take, if_neg (by omega)]
    have e2 : (l.take n ++ [a])[i]? = none := by
      rw [List.getElem?_append, if_neg (by rw [hlen]; omega), hlen]
      exact List.getElem?_eq_none (by simp; omega)
    rw [e1, e2]

lemma append_replicate_set_take {α : Type} (l : List α) (k : Nat) (b a : α)
    (hk : 0 < k) :
    ((l ++ List.replicate k b).set l.length a).take (l.length + 1) = l ++ [a] := by
  apply List.ext_getElem?
  intro i
  have hlen : (l ++ List.replicate k b).length = l.length + k := by simp
  rcases lt_trichotomy i l.length with h | h | h
  · have e1 : (((l ++ List.replicate k b).set l.length a).take (l.length + 1))[i]? = l[i]? := by
      rw [List.getElem?_take, if_pos (by omega), List.getElem?_set, if_neg (by omega),
        List.getElem?_append, if_pos h]
    have e2 : (l ++ [a])[i]? = l[i]? := by
      rw [List.getElem?_append, if_pos h]
    rw [e1, e2]
  · subst h
    have e1 : (((l ++ List.replicate k b).set l.length a).take (l.length + 1))[l.length]? = some a := by
      rw [List.getElem?_take, if_pos (by omega), List.getElem?_set, if_pos rfl,
        if_pos (by rw [hlen]; omega)]
    rw [e1, List.getElem?_concat_length]
  · have e1 : (((l ++ List.replicate k b).set l.length a).take (l.length + 1))[i]? = none := by
      rw [List.getElem?_take, if_neg (by omega)]
    have e2 : (l ++ [a])[i]? = none := by
      exact List.getElem?_eq_none (by simp; omega)
    rw [e1, e2]

lemma abstracts_new {T : Type} : (MyVec.new : MyVec T).Abstracts [] := by
  simp [MyVec.Abstracts, MyVec.new]

lemma push_state_of_error {T : Type} (sizeT alignT : Nat) (allocOk : Bool)
    (v : MyVec T) (x : T)
    (h : (MyVec.push sizeT alignT allocOk v x).error ≠ none) :
    (MyVec.push sizeT alignT allocOk v x).state = v := by
  unfold MyVec.push at *
  split_ifs at * <;> simp_all

lemma push_abstracts {T : Type} (sizeT alignT : Nat) (allocOk : Bool)
    (v : MyVec T) (x : T) (xs : List T) (ha : v.Abstracts xs)
    (hs : (MyVec.push sizeT alignT allocOk v x).error = none) :
    (MyVec.push sizeT alignT allocOk v x).state.Abstracts (xs ++ [x]) := by
  obtain ⟨hb, hl, hlc, htake⟩ := ha
  unfold MyVec.push at hs ⊢
  unfold MyVec.Abstracts
  split_ifs at hs ⊢ with h1 h2 h3 h4 h5 h6 h7 h8 h9 h10
  all_goals try (simp at hs)
  · -- first allocation: capacity was 0, so length was 0 and xs = []
    have hx0 : xs = [] := by
      have hxlen : xs.length = 0 := by omega
      exact List.eq_nil_of_length_eq_zero hxlen
    subst hx0
    dsimp only
    refine ⟨by simp, by simp, by simp, ?_⟩
    simp [List.replicate_succ]
  · -- in-place write at offset length
    dsimp only
    refine ⟨by simp [hb], by simp [hl], by omega, ?_⟩
    have hts := take_set_snoc v.buffer v.length (some x) (by omega)
    rw [hts, htake]
    simp
  · -- grow path: length == capacity, realloc succeeded
    dsimp only
    refine ⟨by simp [hb]; omega, by simp [hl], by omega, ?_⟩
    have hbl : v.buffer.length = v.length := by omega
    have hbuf : v.buffer = xs.map some := by
      rw [← htake, ← hbl, List.take_length]
    have hars := append_replicate_set_take v.buffer (v.capacity * 2 - v.capacity)
      (none : Option T) (some x) (by omega)
    rw [hbl] at hars
    rw [hars, hbuf]
    simp

lemma get_of_abstracts {T : Type} (v : MyVec T) (xs : List T)
    (ha : v.Abstracts xs) (i : Nat) : v.get i = xs[i]? := by
  obtain ⟨hb, hl, hlc, htake⟩ := ha
  unfold MyVec.get
  split_ifs with h
  · exact (List.getElem?_eq_none (by omega)).symm
  · have hi : i < v.length := by omega
    have hbi : v.buffer[i]? = (v.buffer.take v.length)[i]? := by
      rw [List.getElem?_take, if_pos hi]
    rw [hbi, htake, List.getElem?_map]
    cases hx : xs[i]? <;> simp [hx]

lemma pushAll_abstracts {T : Type} (sizeT alignT : Nat) (xs : List T) :
    ∀ (v : MyVec T) (acc : List T), v.Abstracts acc →
      (MyVec.pushAll sizeT alignT v xs).2 = true →
      (MyVec.pushAll sizeT alignT v xs).1.Abstracts (acc ++ xs) := by
  induction xs with
  | nil => intro v acc ha _; simpa using ha
  | cons x rest ih =>
    intro v acc ha hok
    unfold MyVec.pushAll at hok ⊢
    dsimp only at hok ⊢
    cases he : (MyVec.push sizeT alignT true v x).error with
    | some e => rw [he] at hok; simp at hok
    | none =>
      simp only [he] at hok ⊢
      have hstep := push_abstracts sizeT alignT true v x acc ha he
      have := ih (MyVec.push sizeT alignT true v x).state (acc ++ [x]) hstep hok
      simpa using this

lemma reachable_abstracts {T : Type} {sizeT alignT : Nat} {v : MyVec T}
    (h : MyVec.Reachable sizeT alignT v) : ∃ xs, v.Abstracts xs := by
  induction h with
  | new => exact ⟨[], abstracts_new⟩
  | push w x allocOk hw ih =>
    obtain ⟨xs, hxs⟩ := ih
    cases he : (MyVec.push sizeT alignT allocOk w x).error with
    | none => exact ⟨xs ++ [x], push_abstracts sizeT alignT allocOk w x xs hxs he⟩
    | some e =>
      rw [push_state_of_error sizeT alignT allocOk w x (by rw [he]; simp)]
      exact ⟨xs, hxs⟩

lemma push_capacity_monotone {T : Type} (sizeT alignT : Nat) (allocOk : Bool)
    (v : MyVec T) (x : T) :
    v.capacity ≤ (MyVec.push sizeT alignT allocOk v x).state.capacity := by
  unfold MyVec.push
  split_ifs <;> dsimp only <;> omega

lemma push_capacity_success {T : Type} (sizeT alignT : Nat) (allocOk : Bool)
    (v : MyVec T) (x : T)
    (hs : (MyVec.push sizeT alignT allocOk v x).error = none) :
    (MyVec.push sizeT alignT allocOk v x).state.capacity =
      if v.capacity = 0 then 4
      else if v.length < v.capacity then v.capacity
      else v.capacity * 2 := by
  unfold MyVec.push at hs ⊢
  split_ifs at hs ⊢ <;> rfl

lemma reachable_capacity_values {T : Type} {sizeT alignT : Nat} {v : MyVec T}
    (h : MyVec.Reachable sizeT alignT v) :
    v.capacity = 0 ∨ ∃ k, v.capacity = 4 * 2 ^ k := by
  induction h with
  | new => exact Or.inl rfl
  | push w x allocOk hw ih =>
    cases he : (MyVec.push sizeT alignT allocOk w x).error with
    | some e =>
      rw [push_state_of_error sizeT alignT allocOk w x (by rw [he]; simp)]
      exact ih
    | none =>
      rw [push_capacity_success sizeT alignT allocOk w x he]
      split_ifs with hc hl
      · exact Or.inr ⟨0, rfl⟩
      · exact ih
      · rcases ih with h0 | ⟨k, hk⟩
        · exact absurd h0 hc
        · exact Or.inr ⟨k + 1, by rw [hk]; ring⟩

/-- Claim C1: for every element type with nonzero size, pushing v0..vn-1 in
order into a fresh container gives get(i) = some vi for i < n and
get(i) = none for i >= n. -/
theorem c1_round_trip {T : Type} (sizeT alignT : Nat) (_hsz : 0 < sizeT)
    (xs : List T)
    (hok : (MyVec.pushAll sizeT alignT MyVec.new xs).2 = true) :
    (∀ i : Nat, (h : i < xs.length) →
      (MyVec.pushAll sizeT alignT MyVec.new xs).1.get i = some xs[i]) ∧
    (∀ i : Nat, xs.length ≤ i →
      (MyVec.pushAll sizeT alignT MyVec.new xs).1.get i = none) := by
  have ha := pushAll_abstracts sizeT alignT xs MyVec.new [] abstracts_new hok
  simp only [List.nil_append] at ha
  constructor
  · intro i h
    rw [get_of_abstracts _ _ ha i, List.getElem?_eq_getElem h]
  · intro i h
    rw [get_of_abstracts _ _ ha i]
    exact List.getElem?_eq_none h

theorem c1_round_trip_witness :
    (0 : Nat) < 8 ∧
    (MyVec.pushAll 8 8 (MyVec.new : MyVec Nat) [10, 20, 30]).2 = true ∧
    ((∀ i : Nat, (h : i < ([10, 20, 30] : List Nat).length) →
        (MyVec.pushAll 8 8 (MyVec.new : MyVec Nat) [10, 20, 30]).1.get i =
          some ([10, 20, 30] : List Nat)[i]) ∧
      (∀ i : Nat, ([10, 20, 30] : List Nat).length ≤ i →
        (MyVec.pushAll 8 8 (MyVec.new : MyVec Nat) [10, 20, 30]).1.get i = none)) :=
  ⟨by decide, by decide, c1_round_trip 8 8 (by decide) [10, 20, 30] (by decide)⟩

/-- Claim C2: capacity starts at 0, is 4 after the first successful push,
doubles on a successful push exactly when length equals capacity and stays
fixed otherwise, never decreases, and only takes values 0, 4, 8, 16, ... -/
theorem c2_capacity_growth_law {T : Type} (sizeT alignT : Nat) (allocOk : Bool)
    (v : MyVec T) (x : T) (hv : MyVec.Reachable sizeT alignT v) :
    (MyVec.new : MyVec T).capacityFn = 0 ∧
    v.capacityFn ≤ (MyVec.push sizeT alignT allocOk v x).state.capacityFn ∧
    ((MyVec.push sizeT alignT allocOk v x).error = none →
      (MyVec.push sizeT alignT allocOk v x).state.capacityFn =
        if v.capacityFn = 0 then 4
        else if v.len = v.capacityFn then 2 * v.capacityFn
        else v.capacityFn) ∧
    (v.capacityFn = 0 ∨ ∃ k, v.capacityFn = 4 * 2 ^ k) := by
  obtain ⟨xs, hb, hl, hlc, htake⟩ := reachable_abstracts hv
  refine ⟨rfl, push_capacity_monotone sizeT alignT allocOk v x, ?_,
    reachable_capacity_values hv⟩
  intro hs
  unfold MyVec.capacityFn MyVec.len
  rw [push_capacity_success sizeT alignT allocOk v x hs]
  split_ifs <;> omega

theorem c2_capacity_growth_law_witness :
    (MyVec.new : MyVec Nat).capacityFn = 0 ∧
    (MyVec.new : MyVec Nat).capacityFn ≤
      (MyVec.push 8 8 true (MyVec.new : MyVec Nat) 7).state.capacityFn ∧
    ((MyVec.push 8 8 true (MyVec.new : MyVec Nat) 7).error = none →
      (MyVec.push 8 8 true (MyVec.new : MyVec Nat) 7).state.capacityFn =
        if (MyVec.new : MyVec Nat).capacityFn = 0 then 4
        else if (MyVec.new : MyVec Nat).len = (MyVec.new : MyVec Nat).capacityFn then
          2 * (MyVec.new : MyVec Nat).capacityFn
        else (MyVec.new : MyVec Nat).capacityFn) ∧
    ((MyVec.new : MyVec Nat).capacityFn = 0 ∨
      ∃ k, (MyVec.new : MyVec Nat).capacityFn = 4 * 2 ^ k) :=
  c2_capacity_growth_law 8 8 true MyVec.new 7 MyVec.Reachable.new

/-- Claim C3: for every reachable state, get(index) is none exactly when
index >= len(), and otherwise yields the value stored in the initialized
slot at index; get is total in the model (no panic path exists). -/
theorem c3_get_none_iff_out_of_range {T : Type} (sizeT alignT : Nat)
    (v : MyVec T) (hv : MyVec.Reachable sizeT alignT v) (index : Nat) :
    (v.get index = none ↔ v.len ≤ index) ∧
    (index < v.len → ∃ a : T, v.get index = some a ∧
      v.buffer[index]? = some (some a)) := by
  obtain ⟨xs, ha⟩ := reachable_abstracts hv
  have hg := get_of_abstracts v xs ha index
  obtain ⟨hb, hl, hlc, htake⟩ := ha
  constructor
  · rw [hg]
    unfold MyVec.len
    constructor
    · intro hn
      by_contra hlt
      push_neg at hlt
      rw [List.getElem?_eq_getElem (by omega)] at hn
      exact Option.noConfusion hn
    · intro hn
      exact List.getElem?_eq_none (by omega)
  · intro hi
    unfold MyVec.len at hi
    have hx : index < xs.length := by omega
    refine ⟨xs[index], ?_, ?_⟩
    · rw [hg, List.getElem?_eq_getElem hx]
    · have hbt : v.buffer[index]? = (v.buffer.take v.length)[index]? := by
        rw [List.getElem?_take, if_pos (by omega)]
      rw [hbt, htake, List.getElem?_map, List.getElem?_eq_getElem hx]
      rfl

theorem c3_get_none_iff_out_of_range_witness :
    (((MyVec.push 8 8 true (MyVec.new : MyVec Nat) 7).state.get 0 = none ↔
        (MyVec.push 8 8 true (MyVec.new : MyVec Nat) 7).state.len ≤ 0) ∧
      (0 < (MyVec.push 8 8 true (MyVec.new : MyVec Nat) 7).state.len →
        ∃ a : Nat, (MyVec.push 8 8 true (MyVec.new : MyVec Nat) 7).state.get 0 = some a ∧
          (MyVec.push 8 8 true (MyVec.new : MyVec Nat) 7).state.buffer[(0 : Nat)]? =
            some (some a))) :=
  c3_get_none_iff_out_of_range 8 8
    (MyVec.push 8 8 true (MyVec.new : MyVec Nat) 7).state
    (MyVec.Reachable.push MyVec.new 7 true MyVec.Reachable.new) 0

/-- Claim C4: after exactly n successful pushes len() equals n, and the
concrete scenario pushing 1,2,3,4,5 gives len 5, capacity 8 and
get(3) = some 4. -/
theorem c4_length_tracking {T : Type} (sizeT alignT : Nat) (xs : List T)
    (hok : (MyVec.pushAll sizeT alignT MyVec.new xs).2 = true) :
    (MyVec.pushAll sizeT alignT MyVec.new xs).1.len = xs.length ∧
    (MyVec.pushAll 8 8 (MyVec.new : MyVec Nat) [1, 2, 3, 4, 5]).1.len = 5 ∧
    (MyVec.pushAll 8 8 (MyVec.new : MyVec Nat) [1, 2, 3, 4, 5]).1.capacityFn = 8 ∧
    (MyVec.pushAll 8 8 (MyVec.new : MyVec Nat) [1, 2, 3, 4, 5]).1.get 3 = some 4 := by
  refine ⟨?_, by decide, by decide, by decide⟩
  have ha := pushAll_abstracts sizeT alignT xs MyVec.new [] abstracts_new hok
  simp only [List.nil_append] at ha
  obtain ⟨hb, hl, hlc, htake⟩ := ha
  exact hl

theorem c4_length_tracking_witness :
    (MyVec.pushAll 8 8 (MyVec.new : MyVec Nat) [1, 2, 3, 4, 5]).2 = true ∧
    ((MyVec.pushAll 8 8 (MyVec.new : MyVec Nat) [1, 2, 3, 4, 5]).1.len =
        ([1, 2, 3, 4, 5] : List Nat).length ∧
      (MyVec.pushAll 8 8 (MyVec.new : MyVec Nat) [1, 2, 3, 4, 5]).1.len = 5 ∧
      (MyVec.pushAll 8 8 (MyVec.new : MyVec Nat) [1, 2, 3, 4, 5]).1.capacityFn = 8 ∧
      (MyVec.pushAll 8 8 (MyVec.new : MyVec Nat) [1, 2, 3, 4, 5]).1.get 3 = some 4) :=
  ⟨by decide, c4_length_tracking 8 8 [1, 2, 3, 4, 5] (by decide)⟩

/-- Claim C5: the invariant 0 <= length <= capacity holds in every
reachable state. -/
theorem c5_length_le_capacity {T : Type} (sizeT alignT : Nat) (v : MyVec T)
    (hv : MyVec.Reachable sizeT alignT v) : v.len ≤ v.capacityFn := by
  obtain ⟨xs, hb, hl, hlc, htake⟩ := reachable_abstracts hv
  exact hlc

theorem c5_length_le_capacity_witness :
    (MyVec.push 8 8 true (MyVec.new : MyVec Nat) 7).state.len ≤
      (MyVec.push 8 8 true (MyVec.new : MyVec Nat) 7).state.capacityFn :=
  c5_length_le_capacity 8 8 (MyVec.push 8 8 true (MyVec.new : MyVec Nat) 7).state
    (MyVec.Reachable.push MyVec.new 7 true MyVec.Reachable.new)

/-- Claim C6, evaluated at the failing input: dropping a fresh container
(capacity 0, dangling pointer, no allocation ever made) still emits a
dealloc call, with a zero byte size, contradicting the claim that no
release call is made when capacity is 0.  The second conjunct shows the
correct part of the claim on a pushed container: the three elements are
destructed exactly once each, in ascending index order, before the one
dealloc call. -/
theorem c6_drop_trace_behavior :
    (MyVec.new : MyVec Nat).dropTrace 8 8 = [DropEvent.deallocCall 0 8] ∧
    (MyVec.pushAll 8 8 (MyVec.new : MyVec Nat) [1, 2, 3]).1.dropTrace 8 8 =
      [DropEvent.elemDrop 1, DropEvent.elemDrop 2, DropEvent.elemDrop 3,
        DropEvent.deallocCall 32 8] := by
  exact ⟨rfl, by decide⟩

/-- Claim C7: when a push that needs growth fails because realloc returns
no memory, the state (buffer handle and contents, length, capacity) is
exactly what it was before the push. -/
theorem c7_realloc_failure_preserves_state {T : Type} (sizeT alignT : Nat)
    (v : MyVec T) (x : T) (hsz : sizeT ≠ 0) (hcap : v.capacity ≠ 0)
    (hfull : ¬ v.length < v.capacity)
    (hadd : growOldLayoutSize sizeT alignT v.capacity ≤ USIZE_MAX)
    (hmul : v.capacity * 2 ≤ USIZE_MAX) :
    (MyVec.push sizeT alignT false v x).state = v ∧
    (MyVec.push sizeT alignT false v x).error = some PushError.reallocFailed := by
  unfold MyVec.push
  split_ifs <;> first | exact ⟨rfl, rfl⟩ | omega | simp_all

theorem c7_realloc_failure_preserves_state_witness :
    (MyVec.push 8 8 false
        ⟨[some 1, some 2, some 3, some 4], 4, 4⟩ (5 : Nat)).state =
      ⟨[some 1, some 2, some 3, some 4], 4, 4⟩ ∧
    (MyVec.push 8 8 false
        ⟨[some 1, some 2, some 3, some 4], 4, 4⟩ (5 : Nat)).error =
      some PushError.reallocFailed :=
  c7_realloc_failure_preserves_state 8 8
    ⟨[some 1, some 2, some 3, some 4], 4, 4⟩ 5
    (by decide) (by decide) (by decide) (by decide) (by decide)

/-- Claim C8: for a zero-sized element type, push fails fatally at once:
no allocator call is made and the whole state is unchanged. -/
theorem c8_zero_sized_rejected {T : Type} (alignT : Nat) (allocOk : Bool)
    (v : MyVec T) (x : T) :
    MyVec.push 0 alignT allocOk v x =
      { state := v, error := some PushError.zeroSized, allocCalls := [] } := rfl

/-- Claim C9: a fresh container has len 0, capacity 0, get(0) = none, and
owns no allocated slots at all (the buffer behind the dangling pointer is
empty, no allocation was made). -/
theorem c9_fresh_container :
    (MyVec.new : MyVec Nat).len = 0 ∧
    (MyVec.new : MyVec Nat).capacityFn = 0 ∧
    (MyVec.new : MyVec Nat).get 0 = none ∧
    (MyVec.new : MyVec Nat).buffer = [] :=
  ⟨rfl, rfl, rfl, rfl⟩

/-- Claim C10 as stated is false: for every element type, Rust guarantees
that the size is a multiple of the alignment, so the padding adjustment
size % align of the grow path is always zero and the old-layout byte size
never differs from capacity * size_of(T). -/
theorem c10_claim_counterexample : ¬ GrowPaddingNonzeroSomewhere := by
  rintro ⟨sizeT, alignT, capacity, ⟨hpos, hdvd⟩, hs, hne⟩
  obtain ⟨t, rfl⟩ := hdvd
  apply hne
  unfold growOldLayoutSize
  have hmod : alignT * t * capacity % alignT = 0 := by
    rw [Nat.mul_assoc, Nat.mul_mod_right]
  omega

/-- Claim C10 amended: for every element type satisfying the Rust layout
guarantee, the old-layout byte size computed by the grow path equals
capacity * size_of(T); the size % align adjustment is always zero. -/
theorem c10_padding_always_zero (sizeT alignT capacity : Nat)
    (h : RustLayoutValid sizeT alignT) :
    growOldLayoutSize sizeT alignT capacity = sizeT * capacity := by
  obtain ⟨hpos, t, rfl⟩ := h
  unfold growOldLayoutSize
  have hmod : alignT * t * capacity % alignT = 0 := by
    rw [Nat.mul_assoc, Nat.mul_mod_right]
  omega

theorem c10_padding_always_zero_witness :
    RustLayoutValid 8 4 ∧ growOldLayoutSize 8 4 3 = 8 * 3 :=
  ⟨⟨by decide, by decide⟩, c10_padding_always_zero 8 4 3 ⟨by decide, by decide⟩⟩
